import Mathlib

/-!
# Verification of the flask-youtube-downloader core (`src/app.py`)

Shallow embedding of the two core components of the repository:

* the Format Normalizer (`get_video_info`): turns the raw stream-descriptor
  list reported by the extraction engine into a deduplicated, ranked list of
  quality options with two synthetic entries;
* the File Lifecycle Manager (`download`, `generate`, `cleanup_old_files`):
  per-request temp-path generation, engine option construction, and the
  best-effort deletion sites.

Python dictionaries coming from the engine have optional keys; a field read
with `f.get(k)` is modelled as `Option`, and `f.get(k, d)` as `Option.getD d`.
Numeric sizes and heights are naturals (the code never produces negatives).
-/

namespace App

/-- One raw stream descriptor as read by `get_video_info` from
`info['formats']`.  Every field the code touches is present; keys that may be
missing in the Python dict are `Option`s. -/
structure RawFormat where
  height : Option Nat
  vcodec : Option String
  acodec : Option String
  filesize : Option Nat
  filesize_approx : Option Nat
  format_id : String
  ext : Option String
  fps : Option Nat
  format_note : Option String
  deriving Repr, DecidableEq

/-- One entry of the `formats` list built by `get_video_info`.  The synthetic
"Best Available" and "Audio Only" dicts carry no `vcodec` key, hence
`vcodec : Option String` with `none` exactly for the synthetic entries. -/
structure QualityOption where
  format_id : String
  resolution : String
  height : Nat
  filesize : Nat
  ext : String
  fps : Nat
  vcodec : Option String
  quality_label : String
  deriving Repr, DecidableEq

/-- `f.get('filesize') or f.get('filesize_approx', 0)`: Python `or` falls
through on `None` and on `0`. -/
def rawSize (f : RawFormat) : Nat :=
  match f.filesize with
  | some n => if n ≠ 0 then n else f.filesize_approx.getD 0
  | none => f.filesize_approx.getD 0

/-- First scan of `get_video_info`: the running maximum of `rawSize` over
descriptors with `f.get('acodec') != 'none' and f.get('vcodec') == 'none'`
(note: no defaults in these two `get` calls), updated with strict `>`. -/
def bestAudioSize (fmts : List RawFormat) : Nat :=
  fmts.foldl
    (fun acc f =>
      if f.acodec ≠ some "none" ∧ f.vcodec = some "none" then
        (if rawSize f > acc then rawSize f else acc)
      else acc)
    0

/-- The filter of the second scan: kept iff `height` is present and ≥ 144
(`not height or height < 144` skips) and `f.get('vcodec', 'none')` is not
`'none'`. -/
def survives (f : RawFormat) : Bool :=
  144 ≤ f.height.getD 0 ∧ f.vcodec.getD "none" ≠ "none"

/-- Computed `filesize` of a surviving descriptor: `rawSize`, plus
`bestAudioSize` when the stream is video-only (`acodec == 'none'`) and a
positive best audio size was found. -/
def computedSize (best : Nat) (f : RawFormat) : Nat :=
  if f.acodec.getD "none" = "none" ∧ 0 < best then rawSize f + best else rawSize f

/-- The dict value built for a surviving descriptor (`formats_dict[key] = {...}`).
The `filesize_mb` display field (a rounded float) is not modelled. -/
def mkEntry (best : Nat) (f : RawFormat) : QualityOption :=
  let h := f.height.getD 0
  { format_id := f.format_id
    resolution := toString h ++ "p"
    height := h
    filesize := computedSize best f
    ext := f.ext.getD "mp4"
    fps := f.fps.getD 30
    vcodec := some (f.vcodec.getD "none")
    quality_label := f.format_note.getD (toString h ++ "p") }

/-- Update-or-append on the insertion-ordered association list that models the
Python dict `formats_dict` (an update keeps the key's insertion position). -/
def updKey (h : Nat) (e : QualityOption) : List (Nat × QualityOption) → List (Nat × QualityOption)
  | [] => [(h, e)]
  | (k, v) :: rest => if k = h then (k, e) :: rest else (k, v) :: updKey h e rest

/-- `key in formats_dict` / `formats_dict[key]` on the association-list model. -/
def dictFind (h : Nat) : List (Nat × QualityOption) → Option QualityOption
  | [] => none
  | (k, v) :: rest => if k = h then some v else dictFind h rest

/-- One iteration of the second scan.  The dict key is the string
`f"{height}p"`, which determines and is determined by the height, so the
model keys directly by the height.  The entry is (re)written iff the key is
absent or the new computed filesize is strictly greater. -/
def dictStep (best : Nat) (d : List (Nat × QualityOption)) (f : RawFormat) :
    List (Nat × QualityOption) :=
  if survives f then
    let h := f.height.getD 0
    let e := mkEntry best f
    match dictFind h d with
    | none => updKey h e d
    | some old => if old.filesize < e.filesize then updKey h e d else d
  else d

/-- The full `formats_dict` after the second scan. -/
def formats_dict (fmts : List RawFormat) : List (Nat × QualityOption) :=
  fmts.foldl (dictStep (bestAudioSize fmts)) []

/-- `formats.sort(key=lambda x: x['height'], reverse=True)`.  Heights are
pairwise distinct in the dict values (proved below), so any comparison-sort
produces the same list; we use `List.insertionSort` on descending height. -/
def sortDesc (l : List QualityOption) : List QualityOption :=
  l.insertionSort (fun a b => b.height ≤ a.height)

instance : IsTotal QualityOption (fun a b => b.height ≤ a.height) :=
  ⟨fun a b => Or.symm (Nat.le_total a.height b.height)⟩

instance : IsTrans QualityOption (fun a b => b.height ≤ a.height) :=
  ⟨fun _ _ _ h1 h2 => Nat.le_trans h2 h1⟩

/-- The synthetic "Best Available" entry inserted at index 0 when the sorted
list is non-empty; `top` is `formats[0]`, the current head. -/
def bestEntry (top : QualityOption) : QualityOption :=
  { format_id := "bestvideo+bestaudio/best"
    resolution := "Best Available"
    height := 9999
    filesize := top.filesize
    ext := "mp4"
    fps := 60
    vcodec := none
    quality_label := "Highest Quality" }

/-- The synthetic "Audio Only" entry always appended last. -/
def audioEntry (best : Nat) : QualityOption :=
  { format_id := "bestaudio"
    resolution := "Audio Only"
    height := 0
    filesize := best
    ext := "mp3"
    fps := 0
    vcodec := none
    quality_label := "MP3 Audio" }

/-- The `formats` list returned by `get_video_info` on the success path:
dict values, sorted by descending height, "Best" prepended when non-empty,
"Audio Only" appended. -/
def normalizeFormats (fmts : List RawFormat) : List QualityOption :=
  let best := bestAudioSize fmts
  let sorted := sortDesc ((formats_dict fmts).map Prod.snd)
  let withBest :=
    match sorted with
    | [] => sorted
    | top :: _ => bestEntry top :: sorted
  withBest ++ [audioEntry best]

/-- The non-synthetic output entries: exactly those that carry a `vcodec` key. -/
def realEntries (l : List QualityOption) : List QualityOption :=
  l.filter (fun e => e.vcodec.isSome)

/-- Spec side, from the spec's own words: "Within a group, keep the descriptor
with the larger computed `filesize` (tie-break: first seen wins, since strict
`>` is used for replacement)" — one replacement step of that group fold. -/
def specPickStep (best : Nat) (acc : Option QualityOption) (f : RawFormat) :
    Option QualityOption :=
  match acc with
  | none => some (mkEntry best f)
  | some e =>
    if e.filesize < (mkEntry best f).filesize then some (mkEntry best f) else acc

/-- Spec side: the winner of one height group under strict-greater
replacement, first seen winning ties. -/
def specGroupPick (best : Nat) (group : List RawFormat) : Option QualityOption :=
  group.foldl (specPickStep best) none

/-- The height group the spec's step 4 speaks about: the surviving
descriptors with the given height. -/
def heightGroup (fmts : List RawFormat) (h : Nat) : List RawFormat :=
  fmts.filter (fun f => survives f && (f.height.getD 0 == h))

/-! Concrete descriptor lists used by counterexamples and witnesses. -/

/-- A 1080p video-only stream (5000000 bytes). -/
def fmt137 : RawFormat :=
  ⟨some 1080, some "avc1", some "none", some 5000000, none, "137", some "mp4", some 30, none⟩

/-- A 720p video-only stream (3000000 bytes). -/
def fmt136 : RawFormat :=
  ⟨some 720, some "avc1", some "none", some 3000000, none, "136", some "mp4", some 30, none⟩

/-- A 500000-byte audio-only stream. -/
def fmt140 : RawFormat :=
  ⟨none, some "none", some "aac", some 500000, none, "140", some "m4a", none, none⟩

/-- The spec's end-to-end scenario A: 1080p and 720p video-only streams plus
one 500000-byte audio-only stream. -/
def exScenarioA : List RawFormat := [fmt137, fmt136, fmt140]

/-- A single surviving descriptor taller than the fixed 9999 sentinel. -/
def tallFmt : RawFormat :=
  ⟨some 10000, some "avc1", some "none", some 5000000, none, "600", some "mp4", some 30, none⟩

/-- An input whose only stream is taller than the sentinel. -/
def exTall : List RawFormat := [tallFmt]

/-- A single audio-only descriptor (no usable video descriptor). -/
def exAudioOnly : List RawFormat := [fmt140]

/-! ## File Lifecycle Manager (`download`, `generate`, `cleanup_old_files`) -/

/-- Little-endian decimal digits, by fuel (enough fuel is the number itself). -/
def decDigits : Nat → Nat → List Nat
  | 0, _ => []
  | fuel + 1, n => if n = 0 then [] else n % 10 :: decDigits fuel (n / 10)

/-- Decimal rendering of a natural number, as Python's `f'{timestamp}'`
produces (most-significant digit first, `"0"` for zero). -/
def decimalString (n : Nat) : String :=
  if n = 0 then "0"
  else String.mk ((decDigits n n).reverse.map (fun d => Char.ofNat (48 + d)))

/-- `os.path.join(DOWNLOAD_FOLDER, f'video_{timestamp}')`: the per-request
base path, a pure function of the wall-clock-millisecond timestamp. -/
def tempFilePath (folder : String) (timestampMs : Nat) : String :=
  folder ++ "/video_" ++ decimalString timestampMs

/-- A fetch request as the collision claim quantifies over: an arrival-order
index plus the wall-clock-millisecond value `int(time.time() * 1000)` read at
its start.  Two requests in the same millisecond share the timestamp. -/
structure FetchRequest where
  arrival : Nat
  timestampMs : Nat
  deriving Repr, DecidableEq

/-- The target base path the `download` handler generates for a request. -/
def requestPath (folder : String) (r : FetchRequest) : String :=
  tempFilePath folder r.timestampMs

/-- The engine options the `download` handler builds: the format selector,
the merge container, and the post-processor list (key, codec, quality). -/
structure YdlOpts where
  format : String
  merge_output_format : Option String
  postprocessors : List (String × String × String)
  deriving Repr, DecidableEq

/-- Option construction in `download`: `is_audio = (format_id == 'bestaudio')`
selects `'bestaudio/best'` plus an MP3 extraction post-processor at quality
192 with no merge container; every other `format_id` is passed verbatim with
`merge_output_format = 'mp4'` and no post-processors. -/
def downloadOpts (format_id : String) : YdlOpts :=
  let is_audio := format_id = "bestaudio"
  { format := if is_audio then "bestaudio/best" else format_id
    merge_output_format := if is_audio then none else some "mp4"
    postprocessors :=
      if is_audio then [("FFmpegExtractAudio", "mp3", "192")] else [] }

/-! ## Request handlers (`get_info`, `download`) -/

/-- Outcome of the `get_info` handler before any engine work: either an early
400 JSON error, or an invocation of `get_video_info(url)`. -/
inductive InfoResponse where
  | badRequest (status : Nat) (error : String)
  | engine (url : String)
  deriving Repr, DecidableEq

/-- The `get_info` handler: `request.json.get('url')` is an optional field,
and Python's `if not url` also catches the empty string. -/
def get_info (url : Option String) : InfoResponse :=
  if url.getD "" = "" then .badRequest 400 "No URL provided"
  else .engine (url.getD "")

/-- Outcome of the `download` handler before any engine work: either an early
400 JSON error, or an engine invocation with the constructed options. -/
inductive DownloadResponse where
  | badRequest (status : Nat) (error : String)
  | engine (url : String) (opts : YdlOpts)
  deriving Repr, DecidableEq

/-- The `download` handler's parameter check and option construction:
`if not url or not format_id` returns 400 "Missing parameters" before the
engine is ever invoked. -/
def download_handler (url format_id : Option String) : DownloadResponse :=
  if url.getD "" = "" ∨ format_id.getD "" = "" then
    .badRequest 400 "Missing parameters"
  else .engine (url.getD "") (downloadOpts (format_id.getD ""))

/-- Whether a handler outcome invokes the external engine. -/
def invokesEngine : DownloadResponse → Bool
  | .engine _ _ => true
  | _ => false

/-! ## Deletion sites (`generate`'s post-stream cleanup, `cleanup_old_files`)

The temp directory is modelled as a list of (name, mtime) pairs; `os.remove`
and `os.path.getmtime` are fallible (`Except`), failing exactly when the name
is absent — the race the spec worries about. -/

/-- The directory state: file names with modification times. -/
abbrev FS := List (String × Nat)

/-- `os.remove`: errors (FileNotFoundError) when the file is gone. -/
def osRemove (fs : FS) (name : String) : Except String FS :=
  if (List.filter (fun p => p.1 = name) fs).isEmpty then
    .error "FileNotFoundError"
  else .ok (List.filter (fun p => ¬p.1 = name) fs)

/-- `os.path.getmtime`: errors when the file is gone. -/
def getmtime (fs : FS) (name : String) : Except String Nat :=
  match List.find? (fun p => p.1 = name) fs with
  | some p => .ok p.2
  | none => .error "FileNotFoundError"

/-- The post-stream cleanup in `generate`: `try: os.remove(...) except: pass`.
Any deletion error is swallowed; the function is total and returns a state. -/
def streamCleanup (fs : FS) (name : String) : FS :=
  match osRemove fs name with
  | .ok fs2 => fs2
  | .error _ => fs

/-- One file of the retention sweep: names not starting with `video_` are
skipped; `getmtime`, the one-hour age check and `os.remove` run inside a
per-file `try` whose failure leaves the state unchanged. -/
def sweepStep (now : Nat) (fs : FS) (name : String) : FS :=
  if name.startsWith "video_" then
    match
      (do
        let m ← getmtime fs name
        if now - m > 3600 then osRemove fs name else pure fs :
        Except String FS) with
    | .ok fs2 => fs2
    | .error _ => fs
  else fs

/-- `cleanup_old_files`: fold of the per-file step over the `os.listdir`
snapshot (which may mention files already gone from the live state). -/
def cleanup_old_files (now : Nat) (listing : List String) (fs : FS) : FS :=
  listing.foldl (sweepStep now) fs

/-! ## Lemmas about the dict fold -/

lemma dictFind_updKey_self (h : Nat) (e : QualityOption) :
    ∀ d : List (Nat × QualityOption), dictFind h (updKey h e d) = some e
  | [] => by simp [updKey, dictFind]
  | (k, v) :: rest => by
    by_cases hk : k = h
    · simp [updKey, dictFind, hk]
    · simp [updKey, dictFind, hk, dictFind_updKey_self h e rest]

lemma dictFind_updKey_ne (h h' : Nat) (e : QualityOption) (hne : h' ≠ h) :
    ∀ d : List (Nat × QualityOption), dictFind h' (updKey h e d) = dictFind h' d
  | [] => by simp [updKey, dictFind, Ne.symm hne]
  | (k, v) :: rest => by
    by_cases hk : k = h
    · subst hk
      simp [updKey, dictFind, Ne.symm hne]
    · simp [updKey, dictFind, hk, dictFind_updKey_ne h h' e hne rest]

lemma dictFind_dictStep (best : Nat) (d : List (Nat × QualityOption))
    (f : RawFormat) (h : Nat) :
    dictFind h (dictStep best d f) =
      if survives f ∧ f.height.getD 0 = h then specPickStep best (dictFind h d) f
      else dictFind h d := by
  simp only [dictStep]
  by_cases hs : survives f
  · rw [if_pos hs]
    by_cases hh : f.height.getD 0 = h
    · subst hh
      rw [if_pos ⟨hs, rfl⟩]
      cases hd : dictFind (f.height.getD 0) d with
      | none =>
        simp only [hd, specPickStep]
        exact dictFind_updKey_self _ _ d
      | some old =>
        simp only [hd, specPickStep]
        by_cases hlt : old.filesize < (mkEntry best f).filesize
        · rw [if_pos hlt, if_pos hlt]
          exact dictFind_updKey_self _ _ d
        · rw [if_neg hlt, if_neg hlt, hd]
    · rw [if_neg (fun hc => hh hc.2)]
      cases hd : dictFind (f.height.getD 0) d with
      | none =>
        simp only [hd]
        exact dictFind_updKey_ne _ _ _ (fun he => hh he.symm) d
      | some old =>
        simp only [hd]
        by_cases hlt : old.filesize < (mkEntry best f).filesize
        · rw [if_pos hlt]
          exact dictFind_updKey_ne _ _ _ (fun he => hh he.symm) d
        · rw [if_neg hlt]
  · rw [if_neg hs, if_neg (fun hc => hs hc.1)]

lemma dictFind_foldl (best : Nat) (h : Nat) :
    ∀ (fmts : List RawFormat) (d : List (Nat × QualityOption)),
      dictFind h (fmts.foldl (dictStep best) d) =
        (fmts.filter (fun f => survives f && (f.height.getD 0 == h))).foldl
          (specPickStep best) (dictFind h d)
  | [], _ => rfl
  | f :: rest, d => by
    rw [List.foldl_cons, dictFind_foldl best h rest (dictStep best d f)]
    by_cases hs : survives f
    · by_cases hh : f.height.getD 0 = h
      · rw [List.filter_cons_of_pos (by simp [hs, hh]), List.foldl_cons,
          dictFind_dictStep, if_pos ⟨hs, hh⟩]
      · rw [List.filter_cons_of_neg (by simp [hh]), dictFind_dictStep,
          if_neg (fun hc => hh hc.2)]
    · rw [List.filter_cons_of_neg (by simp [hs]), dictFind_dictStep,
        if_neg (fun hc => hs hc.1)]

lemma mem_updKey (h : Nat) (e : QualityOption) (p : Nat × QualityOption) :
    ∀ d : List (Nat × QualityOption), p ∈ updKey h e d → p = (h, e) ∨ p ∈ d
  | [], hp => by simpa [updKey] using hp
  | (k, v) :: rest, hp => by
    by_cases hk : k = h
    · subst hk
      rw [updKey, if_pos rfl] at hp
      rcases List.mem_cons.mp hp with hpe | hp2
      · exact Or.inl hpe
      · exact Or.inr (List.mem_cons_of_mem _ hp2)
    · rw [updKey, if_neg hk] at hp
      rcases List.mem_cons.mp hp with hpe | hp2
      · exact Or.inr (hpe ▸ List.mem_cons_self _ _)
      · rcases mem_updKey h e p rest hp2 with h1 | h2
        · exact Or.inl h1
        · exact Or.inr (List.mem_cons_of_mem _ h2)

lemma mem_dictStep (best : Nat) (d : List (Nat × QualityOption)) (f : RawFormat)
    (p : Nat × QualityOption) (hp : p ∈ dictStep best d f) :
    (survives f = true ∧ p = (f.height.getD 0, mkEntry best f)) ∨ p ∈ d := by
  by_cases hs : survives f
  · simp only [dictStep, if_pos hs] at hp
    split at hp
    · rcases mem_updKey _ _ _ d hp with h1 | h2
      · exact Or.inl ⟨hs, h1⟩
      · exact Or.inr h2
    · split at hp
      · rcases mem_updKey _ _ _ d hp with h1 | h2
        · exact Or.inl ⟨hs, h1⟩
        · exact Or.inr h2
      · exact Or.inr hp
  · simp only [dictStep, if_neg hs] at hp
    exact Or.inr hp

/-- Every entry of the dict comes from a surviving input descriptor, keyed by
its height and valued by `mkEntry`. -/
lemma mem_foldl_dictStep (best : Nat) :
    ∀ (fmts : List RawFormat) (d : List (Nat × QualityOption))
      (p : Nat × QualityOption), p ∈ fmts.foldl (dictStep best) d →
      p ∈ d ∨ ∃ f, f ∈ fmts ∧ survives f = true ∧ p = (f.height.getD 0, mkEntry best f)
  | [], _, _, hp => Or.inl hp
  | f :: rest, d, p, hp => by
    rcases mem_foldl_dictStep best rest (dictStep best d f) p hp with h1 | h2
    · rcases mem_dictStep best d f p h1 with ⟨hs, hpe⟩ | hd
      · exact Or.inr ⟨f, List.mem_cons_self _ _, hs, hpe⟩
      · exact Or.inl hd
    · rcases h2 with ⟨g, hg, hs, hpe⟩
      exact Or.inr ⟨g, List.mem_cons_of_mem _ hg, hs, hpe⟩

lemma mem_formats_dict (fmts : List RawFormat) (p : Nat × QualityOption)
    (hp : p ∈ formats_dict fmts) :
    ∃ f, f ∈ fmts ∧ survives f = true
      ∧ p = (f.height.getD 0, mkEntry (bestAudioSize fmts) f) := by
  rcases mem_foldl_dictStep (bestAudioSize fmts) fmts [] p hp with h1 | h2
  · simp at h1
  · exact h2

lemma mem_keys_updKey (h : Nat) (e : QualityOption) (x : Nat) :
    ∀ d : List (Nat × QualityOption),
      x ∈ (updKey h e d).map Prod.fst → x = h ∨ x ∈ d.map Prod.fst
  | [], hx => by simpa [updKey] using hx
  | (k, v) :: rest, hx => by
    by_cases hk : k = h
    · subst hk
      simpa [updKey] using hx
    · rw [updKey, if_neg hk, List.map_cons] at hx
      rcases List.mem_cons.mp hx with hxe | hx2
      · exact Or.inr (hxe ▸ List.mem_cons_self _ _)
      · rcases mem_keys_updKey h e x rest hx2 with h1 | h2
        · exact Or.inl h1
        · exact Or.inr (List.mem_cons_of_mem _ h2)

lemma keys_nodup_updKey (h : Nat) (e : QualityOption) :
    ∀ d : List (Nat × QualityOption), (d.map Prod.fst).Nodup →
      ((updKey h e d).map Prod.fst).Nodup
  | [], _ => by simp [updKey]
  | (k, v) :: rest, hd => by
    rw [List.map_cons, List.nodup_cons] at hd
    by_cases hk : k = h
    · subst hk
      simpa [updKey, List.nodup_cons] using hd
    · rw [updKey, if_neg hk, List.map_cons, List.nodup_cons]
      refine ⟨fun hx => ?_, keys_nodup_updKey h e rest hd.2⟩
      rcases mem_keys_updKey h e k rest hx with h1 | h2
      · exact hk h1
      · exact hd.1 h2

lemma keys_nodup_dictStep (best : Nat) (d : List (Nat × QualityOption))
    (f : RawFormat) (hd : (d.map Prod.fst).Nodup) :
    ((dictStep best d f).map Prod.fst).Nodup := by
  by_cases hs : survives f
  · simp only [dictStep, if_pos hs]
    split
    · exact keys_nodup_updKey _ _ d hd
    · split
      · exact keys_nodup_updKey _ _ d hd
      · exact hd
  · simpa only [dictStep, if_neg hs] using hd

lemma keys_nodup_formats_dict (fmts : List RawFormat) :
    ((formats_dict fmts).map Prod.fst).Nodup := by
  suffices hgen : ∀ (l : List RawFormat) (d : List (Nat × QualityOption)),
      (d.map Prod.fst).Nodup →
      ((l.foldl (dictStep (bestAudioSize fmts)) d).map Prod.fst).Nodup by
    exact hgen fmts [] (by simp)
  intro l
  induction l with
  | nil => intro d hd; exact hd
  | cons f rest ih =>
    intro d hd
    exact ih (dictStep (bestAudioSize fmts) d f) (keys_nodup_dictStep _ d f hd)

/-- The dict values have pairwise distinct heights. -/
lemma values_pairwise_height_ne (fmts : List RawFormat) :
    ((formats_dict fmts).map Prod.snd).Pairwise (fun a b => a.height ≠ b.height) := by
  have hkeys := keys_nodup_formats_dict fmts
  have hinv : ∀ p ∈ formats_dict fmts, (Prod.snd p).height = p.1 := by
    intro p hp
    rcases mem_formats_dict fmts p hp with ⟨f, _, _, rfl⟩
    rfl
  rw [List.Nodup, List.pairwise_map] at hkeys
  rw [List.pairwise_map]
  refine List.Pairwise.imp_of_mem ?_ hkeys
  intro p q hp hq hne
  rw [hinv p hp, hinv q hq]
  exact hne

lemma mem_values_vcodec (fmts : List RawFormat) (e : QualityOption)
    (he : e ∈ (formats_dict fmts).map Prod.snd) : e.vcodec.isSome = true := by
  rcases List.mem_map.mp he with ⟨p, hp, rfl⟩
  rcases mem_formats_dict fmts p hp with ⟨f, _, _, rfl⟩
  rfl

lemma sortDesc_perm (l : List QualityOption) : List.Perm (sortDesc l) l :=
  List.perm_insertionSort _ l

/-- The synthetic entries are exactly what `realEntries` drops, so the real
output entries are the sorted dict values. -/
lemma realEntries_normalize (fmts : List RawFormat) :
    realEntries (normalizeFormats fmts) =
      sortDesc ((formats_dict fmts).map Prod.snd) := by
  have hall : ∀ e ∈ sortDesc ((formats_dict fmts).map Prod.snd),
      e.vcodec.isSome = true := by
    intro e he
    exact mem_values_vcodec fmts e ((sortDesc_perm _).mem_iff.mp he)
  simp only [realEntries, normalizeFormats]
  cases hs : sortDesc ((formats_dict fmts).map Prod.snd) with
  | nil => simp [audioEntry]
  | cons top rest =>
    rw [hs] at hall
    rw [List.filter_append]
    have h1 : List.filter (fun e => e.vcodec.isSome) [audioEntry (bestAudioSize fmts)]
        = [] := by simp [audioEntry]
    have h2 : List.filter (fun e => e.vcodec.isSome) (bestEntry top :: top :: rest)
        = top :: rest := by
      rw [List.filter_cons_of_neg (by simp [bestEntry])]
      exact List.filter_eq_self.mpr hall
    rw [h1, h2, List.append_nil]

lemma filter_height_length_le_one (h : Nat) :
    ∀ l : List QualityOption, l.Pairwise (fun a b => a.height ≠ b.height) →
      (l.filter (fun e => e.height == h)).length ≤ 1
  | [], _ => by simp
  | e :: rest, hp => by
    rw [List.pairwise_cons] at hp
    by_cases he : e.height = h
    · rw [List.filter_cons_of_pos (by simp [he])]
      have hnil : rest.filter (fun x => x.height == h) = [] := by
        rw [List.filter_eq_nil_iff]
        intro a ha
        simp only [beq_iff_eq]
        exact fun hah => hp.1 a ha (by rw [he, hah])
      simp [hnil]
    · rw [List.filter_cons_of_neg (by simp [he])]
      exact filter_height_length_le_one h rest hp.2

/-! ## Claim theorems -/

/-- C1: the Normalizer's output contains at most one non-synthetic entry per
distinct height, and the entry the dict holds for a height is exactly the
spec's group fold: among the surviving descriptors of that height, the one
with the larger computed filesize wins, first seen winning ties because
replacement uses strict greater-than. -/
theorem C1_per_height_dedup (fmts : List RawFormat) (h : Nat) :
    ((realEntries (normalizeFormats fmts)).filter (fun e => e.height == h)).length ≤ 1
    ∧ dictFind h (formats_dict fmts)
        = specGroupPick (bestAudioSize fmts) (heightGroup fmts h) := by
  constructor
  · rw [realEntries_normalize]
    rw [((sortDesc_perm ((formats_dict fmts).map Prod.snd)).filter
      (fun e => e.height == h)).length_eq]
    exact filter_height_length_le_one h _ (values_pairwise_height_ne fmts)
  · have hfold := dictFind_foldl (bestAudioSize fmts) h fmts []
    simpa [formats_dict, specGroupPick, heightGroup, dictFind] using hfold

lemma sortDesc_sorted (l : List QualityOption) :
    (sortDesc l).Pairwise (fun a b => b.height ≤ a.height) :=
  List.sorted_insertionSort _ l

/-- The sorted dict values are strictly descending in height. -/
lemma sorted_values_strict (fmts : List RawFormat) :
    (sortDesc ((formats_dict fmts).map Prod.snd)).Pairwise
      (fun a b => b.height < a.height) := by
  have hle := sortDesc_sorted ((formats_dict fmts).map Prod.snd)
  have hne : (sortDesc ((formats_dict fmts).map Prod.snd)).Pairwise
      (fun a b => a.height ≠ b.height) :=
    ((sortDesc_perm _).pairwise_iff (fun hxy => Ne.symm hxy)).mpr
      (values_pairwise_height_ne fmts)
  exact (hle.and hne).imp (fun hab => Nat.lt_of_le_of_ne hab.1 (fun he => hab.2 he.symm))

lemma specPickStep_isSome (best : Nat) (acc : Option QualityOption) (f : RawFormat) :
    (specPickStep best acc f).isSome = true := by
  cases acc with
  | none => rfl
  | some e =>
    simp only [specPickStep]
    split <;> rfl

lemma foldl_specPickStep_some (best : Nat) :
    ∀ (l : List RawFormat) (acc : Option QualityOption), acc.isSome = true →
      (l.foldl (specPickStep best) acc).isSome = true
  | [], _, hacc => hacc
  | f :: rest, acc, hacc => by
    rw [List.foldl_cons]
    exact foldl_specPickStep_some best rest _ (specPickStep_isSome best acc f)

/-- A surviving descriptor guarantees a non-empty dict. -/
lemma formats_dict_ne_nil (fmts : List RawFormat) (f : RawFormat)
    (hf : f ∈ fmts) (hs : survives f = true) : formats_dict fmts ≠ [] := by
  intro hnil
  have hmem : f ∈ heightGroup fmts (f.height.getD 0) :=
    List.mem_filter.mpr ⟨hf, by simp [hs]⟩
  have hsome : (specGroupPick (bestAudioSize fmts)
      (heightGroup fmts (f.height.getD 0))).isSome = true := by
    cases hg : heightGroup fmts (f.height.getD 0) with
    | nil => rw [hg] at hmem; simp at hmem
    | cons g rest =>
      exact foldl_specPickStep_some _ rest _ (specPickStep_isSome _ none g)
  have hfold := dictFind_foldl (bestAudioSize fmts) (f.height.getD 0) fmts []
  have heq : specGroupPick (bestAudioSize fmts) (heightGroup fmts (f.height.getD 0))
      = dictFind (f.height.getD 0) (formats_dict fmts) := by
    rw [specGroupPick, heightGroup, formats_dict]
    exact hfold.symm
  rw [heq, hnil] at hsome
  simp [dictFind] at hsome

/-- C2 (amended): with at least one surviving descriptor and all input heights
below the fixed sentinel 9999, the output is the synthetic "Best Available"
entry first, then the real entries strictly descending in height, then the
synthetic "Audio Only" entry last; the Best entry carries height 9999 (larger
than every real height), the top entry's size, and the Audio entry carries
height 0, size `bestAudioSize` and label "MP3 Audio". -/
theorem C2_synthetic_shape (fmts : List RawFormat)
    (hb : ∀ f ∈ fmts, f.height.getD 0 < 9999)
    (hex : ∃ f, f ∈ fmts ∧ survives f = true) :
    ∃ top rest,
      sortDesc ((formats_dict fmts).map Prod.snd) = top :: rest
      ∧ normalizeFormats fmts
          = bestEntry top :: (top :: rest) ++ [audioEntry (bestAudioSize fmts)]
      ∧ (top :: rest).Pairwise (fun a b => b.height < a.height)
      ∧ (bestEntry top).height = 9999
      ∧ (∀ e ∈ top :: rest, e.height < (bestEntry top).height)
      ∧ (bestEntry top).filesize = top.filesize
      ∧ (audioEntry (bestAudioSize fmts)).height = 0
      ∧ (audioEntry (bestAudioSize fmts)).filesize = bestAudioSize fmts
      ∧ (audioEntry (bestAudioSize fmts)).quality_label = "MP3 Audio"
      ∧ (normalizeFormats fmts).getLast? = some (audioEntry (bestAudioSize fmts)) := by
  rcases hex with ⟨f, hf, hs⟩
  have hdict := formats_dict_ne_nil fmts f hf hs
  have hlen : (sortDesc ((formats_dict fmts).map Prod.snd)).length
      = ((formats_dict fmts).map Prod.snd).length := (sortDesc_perm _).length_eq
  cases hsort : sortDesc ((formats_dict fmts).map Prod.snd) with
  | nil =>
    rw [hsort, List.length_nil] at hlen
    have : (formats_dict fmts).map Prod.snd = [] := List.length_eq_zero.mp hlen.symm
    exact absurd (List.map_eq_nil_iff.mp this) hdict
  | cons top rest =>
    refine ⟨top, rest, rfl, ?_, ?_, rfl, ?_, rfl, rfl, rfl, rfl, ?_⟩
    · simp only [normalizeFormats]
      rw [hsort]
    · exact hsort ▸ sorted_values_strict fmts
    · intro e he
      have hev : e ∈ (formats_dict fmts).map Prod.snd :=
        (sortDesc_perm _).mem_iff.mp (hsort ▸ he)
      rcases List.mem_map.mp hev with ⟨p, hp, rfl⟩
      rcases mem_formats_dict fmts p hp with ⟨g, hg, hgs, rfl⟩
      exact hb g hg
    · simp only [normalizeFormats]
      rw [hsort]
      exact List.getLast?_concat _

/-- C2 is refuted as stated: on an input whose single surviving stream is
10000 pixels tall, the synthetic "Best Available" entry is still placed
first, but its fixed height 9999 is not larger than that real entry's
height. -/
theorem C2_counterexample :
    (normalizeFormats exTall).head? = some (bestEntry (mkEntry 0 tallFmt))
    ∧ mkEntry 0 tallFmt ∈ realEntries (normalizeFormats exTall)
    ∧ ¬ ((mkEntry 0 tallFmt).height < (bestEntry (mkEntry 0 tallFmt)).height) := by
  decide

/-- Witness for C2 (amended) at the spec's scenario A. -/
theorem C2_synthetic_shape_witness :
    (∀ f ∈ exScenarioA, f.height.getD 0 < 9999)
    ∧ (∃ f, f ∈ exScenarioA ∧ survives f = true)
    ∧ ∃ top rest,
        sortDesc ((formats_dict exScenarioA).map Prod.snd) = top :: rest
        ∧ normalizeFormats exScenarioA
            = bestEntry top :: (top :: rest) ++ [audioEntry (bestAudioSize exScenarioA)]
        ∧ (top :: rest).Pairwise (fun a b => b.height < a.height)
        ∧ (bestEntry top).height = 9999
        ∧ (∀ e ∈ top :: rest, e.height < (bestEntry top).height)
        ∧ (bestEntry top).filesize = top.filesize
        ∧ (audioEntry (bestAudioSize exScenarioA)).height = 0
        ∧ (audioEntry (bestAudioSize exScenarioA)).filesize = bestAudioSize exScenarioA
        ∧ (audioEntry (bestAudioSize exScenarioA)).quality_label = "MP3 Audio"
        ∧ (normalizeFormats exScenarioA).getLast?
            = some (audioEntry (bestAudioSize exScenarioA)) :=
  ⟨by decide, by decide, C2_synthetic_shape exScenarioA (by decide) (by decide)⟩

lemma audioScan_le :
    ∀ (l : List RawFormat) (a : Nat),
      a ≤ l.foldl (fun acc f =>
        if f.acodec ≠ some "none" ∧ f.vcodec = some "none" then
          (if rawSize f > acc then rawSize f else acc)
        else acc) a
  | [], a => Nat.le_refl a
  | f :: rest, a => by
    rw [List.foldl_cons]
    refine Nat.le_trans ?_ (audioScan_le rest _)
    by_cases hc : f.acodec ≠ some "none" ∧ f.vcodec = some "none"
    · rw [if_pos hc]
      by_cases hgt : rawSize f > a
      · rw [if_pos hgt]; omega
      · rw [if_neg hgt]
    · rw [if_neg hc]

lemma audioScan_mem_le :
    ∀ (l : List RawFormat) (a : Nat) (g : RawFormat), g ∈ l →
      g.acodec ≠ some "none" → g.vcodec = some "none" →
      rawSize g ≤ l.foldl (fun acc f =>
        if f.acodec ≠ some "none" ∧ f.vcodec = some "none" then
          (if rawSize f > acc then rawSize f else acc)
        else acc) a
  | [], _, _, hg, _, _ => absurd hg (List.not_mem_nil _)
  | f :: rest, a, g, hg, hga, hgv => by
    rw [List.foldl_cons]
    rcases List.mem_cons.mp hg with hge | hg2
    · subst hge
      refine Nat.le_trans ?_ (audioScan_le rest _)
      rw [if_pos ⟨hga, hgv⟩]
      by_cases hgt : rawSize g > a
      · rw [if_pos hgt]
      · rw [if_neg hgt]; omega
    · exact audioScan_mem_le rest _ g hg2 hga hgv

/-- C3: for a surviving video-only descriptor (absent audio codec) the
computed estimated size is its own raw filesize plus `bestAudioSize`
(equivalently, the difference is exactly `bestAudioSize`), and
`bestAudioSize` dominates the raw size of every audio-only descriptor. -/
theorem C3_video_only_adds_best_audio (fmts : List RawFormat) (f : RawFormat)
    (hs : survives f = true) (ha : f.acodec.getD "none" = "none") :
    computedSize (bestAudioSize fmts) f = rawSize f + bestAudioSize fmts
    ∧ computedSize (bestAudioSize fmts) f - rawSize f = bestAudioSize fmts
    ∧ ∀ g ∈ fmts, g.acodec ≠ some "none" → g.vcodec = some "none" →
        rawSize g ≤ bestAudioSize fmts := by
  have hmain : computedSize (bestAudioSize fmts) f = rawSize f + bestAudioSize fmts := by
    rw [computedSize]
    by_cases hb : 0 < bestAudioSize fmts
    · rw [if_pos ⟨ha, hb⟩]
    · rw [if_neg (fun hc => hb hc.2)]
      omega
  refine ⟨hmain, by omega, ?_⟩
  intro g hg hga hgv
  exact audioScan_mem_le fmts 0 g hg hga hgv

/-- Witness for C3 at the 1080p video-only descriptor of scenario A. -/
theorem C3_video_only_adds_best_audio_witness :
    survives fmt137 = true
    ∧ fmt137.acodec.getD "none" = "none"
    ∧ (computedSize (bestAudioSize exScenarioA) fmt137
        = rawSize fmt137 + bestAudioSize exScenarioA
      ∧ computedSize (bestAudioSize exScenarioA) fmt137 - rawSize fmt137
        = bestAudioSize exScenarioA
      ∧ ∀ g ∈ exScenarioA, g.acodec ≠ some "none" → g.vcodec = some "none" →
          rawSize g ≤ bestAudioSize exScenarioA) :=
  ⟨by decide, by decide,
    C3_video_only_adds_best_audio exScenarioA fmt137 (by decide) (by decide)⟩

lemma foldl_dictStep_no_survivor :
    ∀ (fmts : List RawFormat) (best : Nat) (d : List (Nat × QualityOption)),
      (∀ f ∈ fmts, survives f = false) →
      fmts.foldl (dictStep best) d = d
  | [], _, _, _ => rfl
  | f :: rest, best, d, h => by
    rw [List.foldl_cons,
      show dictStep best d f = d from by
        simp [dictStep, h f (List.mem_cons_self _ _)]]
    exact foldl_dictStep_no_survivor rest best d
      (fun g hg => h g (List.mem_cons_of_mem _ hg))

/-- C4 (amended): with zero usable video descriptors the Normalizer returns
exactly one entry, the synthetic "Audio Only" one — not the empty list and
not a "Best" fallback entry. -/
theorem C4_no_survivor_shape (fmts : List RawFormat)
    (h : ∀ f ∈ fmts, survives f = false) :
    normalizeFormats fmts = [audioEntry (bestAudioSize fmts)] := by
  have hd : formats_dict fmts = [] := foldl_dictStep_no_survivor fmts _ [] h
  simp only [normalizeFormats]
  rw [hd]
  rfl

/-- C4 is refuted as stated: on the empty descriptor list the output is a
single synthetic "Audio Only" entry — neither an empty formats list nor a
single fallback "Best" entry. -/
theorem C4_counterexample :
    normalizeFormats [] = [audioEntry 0]
    ∧ ¬ (normalizeFormats [] = [])
    ∧ ¬ ((audioEntry 0).format_id = "bestvideo+bestaudio/best"
        ∨ (audioEntry 0).resolution = "Best Available"
        ∨ (audioEntry 0).quality_label = "Highest Quality") := by
  decide

/-- Witness for C4 (amended) at a one-element, audio-only input. -/
theorem C4_no_survivor_shape_witness :
    (∀ f ∈ exAudioOnly, survives f = false)
    ∧ normalizeFormats exAudioOnly = [audioEntry (bestAudioSize exAudioOnly)] :=
  ⟨by decide, C4_no_survivor_shape exAudioOnly (by decide)⟩

/-- C5 is refuted as stated: with the combinator format id the selector handed
to the engine is the combinator string itself, unchanged.  `downloadOpts` is
the handler's entire option construction and takes no muxing-tool-availability
input, so no muxerless environment receives a substituted single-stream
request. -/
theorem C5_counterexample :
    (downloadOpts "bestvideo+bestaudio/best").format = "bestvideo+bestaudio/best"
    ∧ (Char.ofNat 43) ∈ (downloadOpts "bestvideo+bestaudio/best").format.data := by
  decide

/-- C5 (amended): every format_id other than the exact string 'bestaudio' —
combinator or not, muxing tool available or not — is passed to the engine
verbatim, with merge container mp4 and no post-processors; the handler
performs no fallback substitution. -/
theorem C5_selector_verbatim (fid : String) (h : fid ≠ "bestaudio") :
    (downloadOpts fid).format = fid
    ∧ (downloadOpts fid).merge_output_format = some "mp4"
    ∧ (downloadOpts fid).postprocessors = [] := by
  simp [downloadOpts, h]

/-- Witness for C5 (amended) at the combinator format id. -/
theorem C5_selector_verbatim_witness :
    (downloadOpts "bestvideo+bestaudio/best").format = "bestvideo+bestaudio/best"
    ∧ (downloadOpts "bestvideo+bestaudio/best").merge_output_format = some "mp4"
    ∧ (downloadOpts "bestvideo+bestaudio/best").postprocessors = [] :=
  C5_selector_verbatim "bestvideo+bestaudio/best" (by decide)

/-- C6 is refuted as stated: two distinct requests arriving within the same
millisecond read equal `int(time.time() * 1000)` values and get the same
target path, so path generation is not injective over arrival order. -/
theorem C6_counterexample :
    ((⟨0, 123⟩ : FetchRequest) ≠ (⟨1, 123⟩ : FetchRequest))
    ∧ requestPath "/tmp" ⟨0, 123⟩ = requestPath "/tmp" ⟨1, 123⟩ := by
  decide

lemma decDigits_eq_digits : ∀ (fuel n : Nat), n ≤ fuel →
    decDigits fuel n = Nat.digits 10 n
  | 0, 0, _ => by simp [decDigits]
  | 0, n + 1, h => absurd h (by omega)
  | fuel + 1, n, h => by
    by_cases hn : n = 0
    · subst hn
      simp [decDigits]
    · rw [decDigits, if_neg hn,
        Nat.digits_def' (by norm_num : (1 : Nat) < 10) (Nat.pos_of_ne_zero hn)]
      have hdiv : n / 10 < n := Nat.div_lt_self (Nat.pos_of_ne_zero hn) (by norm_num)
      rw [decDigits_eq_digits fuel (n / 10) (by omega)]

lemma digit_char_inj :
    ∀ d1, d1 < 10 → ∀ d2, d2 < 10 →
      Char.ofNat (48 + d1) = Char.ofNat (48 + d2) → d1 = d2 := by
  decide

lemma map_digitChar_inj :
    ∀ (l1 l2 : List Nat), (∀ d ∈ l1, d < 10) → (∀ d ∈ l2, d < 10) →
      l1.map (fun d => Char.ofNat (48 + d)) = l2.map (fun d => Char.ofNat (48 + d)) →
      l1 = l2
  | [], [], _, _, _ => rfl
  | [], _ :: _, _, _, h => by simp at h
  | _ :: _, [], _, _, h => by simp at h
  | d1 :: r1, d2 :: r2, h1, h2, h => by
    rw [List.map_cons, List.map_cons] at h
    injection h with hh ht
    rw [digit_char_inj d1 (h1 d1 (List.mem_cons_self _ _))
        d2 (h2 d2 (List.mem_cons_self _ _)) hh,
      map_digitChar_inj r1 r2 (fun d hd => h1 d (List.mem_cons_of_mem _ hd))
        (fun d hd => h2 d (List.mem_cons_of_mem _ hd)) ht]

lemma decimalString_digits (n : Nat) (hn : n ≠ 0) :
    decimalString n = String.mk ((Nat.digits 10 n).reverse.map
      (fun d => Char.ofNat (48 + d))) := by
  rw [decimalString, if_neg hn, decDigits_eq_digits n n (Nat.le_refl n)]

lemma decimalString_inj (m n : Nat) (h : decimalString m = decimalString n) :
    m = n := by
  by_cases hm : m = 0 <;> by_cases hn : n = 0
  · rw [hm, hn]
  · exfalso
    rw [hm, decimalString, if_pos rfl, decimalString_digits n hn] at h
    have hd : [Char.ofNat 48] = (Nat.digits 10 n).reverse.map
        (fun d => Char.ofNat (48 + d)) := congrArg String.data h
    cases hrev : (Nat.digits 10 n).reverse with
    | nil => rw [hrev] at hd; simp at hd
    | cons d rest =>
      rw [hrev] at hd
      cases rest with
      | cons _ _ => simp at hd
      | nil =>
        rw [List.map_cons, List.map_nil] at hd
        injection hd with hc _
        have hdm : d ∈ Nat.digits 10 n := by
          have : d ∈ (Nat.digits 10 n).reverse := by rw [hrev]; simp
          simpa using this
        have hdz : d = 0 :=
          (digit_char_inj 0 (by norm_num) d
            (Nat.digits_lt_base (by norm_num) hdm) (by simpa using hc)).symm
        have hdig : Nat.digits 10 n = [0] := by
          have := congrArg List.reverse hrev
          simpa [hdz] using this
        have := Nat.ofDigits_digits 10 n
        rw [hdig, Nat.ofDigits_singleton] at this
        exact hn this.symm
  · exfalso
    rw [hn, decimalString_digits m hm, decimalString, if_pos rfl] at h
    have hd : (Nat.digits 10 m).reverse.map (fun d => Char.ofNat (48 + d))
        = [Char.ofNat 48] := congrArg String.data h
    cases hrev : (Nat.digits 10 m).reverse with
    | nil => rw [hrev] at hd; simp at hd
    | cons d rest =>
      rw [hrev] at hd
      cases rest with
      | cons _ _ => simp at hd
      | nil =>
        rw [List.map_cons, List.map_nil] at hd
        injection hd with hc _
        have hdm : d ∈ Nat.digits 10 m := by
          have : d ∈ (Nat.digits 10 m).reverse := by rw [hrev]; simp
          simpa using this
        have hdz : d = 0 :=
          digit_char_inj d (Nat.digits_lt_base (by norm_num) hdm) 0
            (by norm_num) (by simpa using hc)
        have hdig : Nat.digits 10 m = [0] := by
          have := congrArg List.reverse hrev
          simpa [hdz] using this
        have := Nat.ofDigits_digits 10 m
        rw [hdig, Nat.ofDigits_singleton] at this
        exact hm this.symm
  · rw [decimalString_digits m hm, decimalString_digits n hn] at h
    have hd : (Nat.digits 10 m).reverse.map (fun d => Char.ofNat (48 + d))
        = (Nat.digits 10 n).reverse.map (fun d => Char.ofNat (48 + d)) :=
      congrArg String.data h
    have hrev : (Nat.digits 10 m).reverse = (Nat.digits 10 n).reverse :=
      map_digitChar_inj _ _
        (fun d hdm => Nat.digits_lt_base (by norm_num) (by simpa using hdm))
        (fun d hdn => Nat.digits_lt_base (by norm_num) (by simpa using hdn)) hd
    have hdig : Nat.digits 10 m = Nat.digits 10 n := List.reverse_inj.mp hrev
    have := congrArg (Nat.ofDigits 10) hdig
    rwa [Nat.ofDigits_digits, Nat.ofDigits_digits] at this

/-- C6 (amended): path generation is injective over the millisecond
timestamp: two fetch requests whose `int(time.time() * 1000)` values differ
never collide on the target base path; two requests within the same
millisecond do collide (see the counterexample). -/
theorem C6_distinct_ms_distinct_paths (folder : String) (r1 r2 : FetchRequest)
    (h : r1.timestampMs ≠ r2.timestampMs) :
    requestPath folder r1 ≠ requestPath folder r2 := by
  intro he
  apply h
  apply decimalString_inj
  apply String.ext
  have hd := congrArg String.data he
  simp only [requestPath, tempFilePath, String.data_append] at hd
  exact List.append_inj_right hd rfl

/-- Witness for C6 (amended) at timestamps 123 and 124. -/
theorem C6_distinct_ms_distinct_paths_witness :
    requestPath "/tmp" ⟨0, 123⟩ ≠ requestPath "/tmp" ⟨1, 124⟩ :=
  C6_distinct_ms_distinct_paths "/tmp" ⟨0, 123⟩ ⟨1, 124⟩ (by decide)

lemma survives_iff (f : RawFormat) :
    survives f = true ↔ 144 ≤ f.height.getD 0 ∧ f.vcodec.getD "none" ≠ "none" := by
  simp [survives]

/-- C7: every non-synthetic output entry of the Normalizer originates from a
surviving input descriptor — so its height was present and is at least 144,
and its video codec was present and is not "none"; descriptors failing the
filters never produce a non-synthetic entry. -/
theorem C7_discard_filters (fmts : List RawFormat) (e : QualityOption)
    (he : e ∈ realEntries (normalizeFormats fmts)) :
    ∃ f, f ∈ fmts ∧ survives f = true
      ∧ e = mkEntry (bestAudioSize fmts) f
      ∧ 144 ≤ e.height ∧ e.vcodec ≠ some "none" ∧ e.vcodec ≠ none := by
  rw [realEntries_normalize] at he
  have hev : e ∈ (formats_dict fmts).map Prod.snd := (sortDesc_perm _).mem_iff.mp he
  rcases List.mem_map.mp hev with ⟨p, hp, rfl⟩
  rcases mem_formats_dict fmts p hp with ⟨f, hf, hs, rfl⟩
  rcases (survives_iff f).mp hs with ⟨hh, hv⟩
  refine ⟨f, hf, hs, rfl, hh, ?_, ?_⟩
  · simp only [mkEntry]
    intro hcon
    exact hv (Option.some.inj hcon)
  · simp [mkEntry]

/-- Witness for C7 at the 1080p entry of scenario A. -/
theorem C7_discard_filters_witness :
    ∃ f, f ∈ exScenarioA ∧ survives f = true
      ∧ mkEntry (bestAudioSize exScenarioA) fmt137 = mkEntry (bestAudioSize exScenarioA) f
      ∧ 144 ≤ (mkEntry (bestAudioSize exScenarioA) fmt137).height
      ∧ (mkEntry (bestAudioSize exScenarioA) fmt137).vcodec ≠ some "none"
      ∧ (mkEntry (bestAudioSize exScenarioA) fmt137).vcodec ≠ none :=
  C7_discard_filters exScenarioA (mkEntry (bestAudioSize exScenarioA) fmt137) (by decide)

/-- C8: a describe request with missing url is answered 400 "No URL provided"
and a fetch request missing url or format_id is answered 400
"Missing parameters", and in all these cases the external engine is not
invoked. -/
theorem C8_missing_parameter_responses :
    get_info none = InfoResponse.badRequest 400 "No URL provided"
    ∧ (∀ u, get_info none ≠ InfoResponse.engine u)
    ∧ (∀ fid, download_handler none fid
        = DownloadResponse.badRequest 400 "Missing parameters")
    ∧ (∀ url, download_handler url none
        = DownloadResponse.badRequest 400 "Missing parameters")
    ∧ (∀ fid, invokesEngine (download_handler none fid) = false)
    ∧ (∀ url, invokesEngine (download_handler url none) = false) := by
  have hdl : ∀ url, download_handler url none
      = DownloadResponse.badRequest 400 "Missing parameters" := by
    intro url
    simp [download_handler]
  refine ⟨rfl, ?_, ?_, hdl, ?_, ?_⟩
  · intro u hcon
    rw [show get_info none = InfoResponse.badRequest 400 "No URL provided" from rfl] at hcon
    exact InfoResponse.noConfusion hcon
  · intro fid
    simp [download_handler]
  · intro fid
    simp [download_handler, invokesEngine]
  · intro url
    rw [hdl url]
    rfl

/-- C9: deleting a temp file that no longer exists fails inside `os.remove`,
but both deletion sites swallow the failure: the post-stream cleanup returns
the state unchanged and propagates nothing, the sweep's per-file step
likewise, and the retention sweep continues with the rest of the listing
exactly as if the missing file had not been listed. -/
theorem C9_deletion_never_raises (fs : FS) (name : String) (now : Nat)
    (rest : List String) (habs : (fs.all (fun p => ¬ p.1 = name)) = true) :
    (osRemove fs name).isOk = false
    ∧ streamCleanup fs name = fs
    ∧ sweepStep now fs name = fs
    ∧ cleanup_old_files now (name :: rest) fs = cleanup_old_files now rest fs := by
  have hfilter : List.filter (fun p => decide (p.1 = name)) fs = [] := by
    rw [List.filter_eq_nil_iff]
    intro a ha
    simpa using List.all_eq_true.mp habs a ha
  have hremove : osRemove fs name = Except.error "FileNotFoundError" := by
    simp [osRemove, hfilter]
  have hfind : List.find? (fun p => decide (p.1 = name)) fs = none := by
    rw [List.find?_eq_none]
    intro a ha
    simpa using List.all_eq_true.mp habs a ha
  have hmtime : getmtime fs name = Except.error "FileNotFoundError" := by
    simp [getmtime, hfind]
  have hsweep : sweepStep now fs name = fs := by
    by_cases hpre : name.startsWith "video_"
    · rw [sweepStep, if_pos hpre, hmtime]
      rfl
    · rw [sweepStep, if_neg hpre]
  refine ⟨by rw [hremove]; rfl, by rw [streamCleanup, hremove], hsweep, ?_⟩
  rw [cleanup_old_files, List.foldl_cons, hsweep]
  rfl

/-- Witness for C9: the sweep listing mentions `video_gone`, which is absent
from the directory state. -/
theorem C9_deletion_never_raises_witness :
    ((([("video_a", 100)] : FS).all (fun p => ¬ p.1 = "video_gone")) = true)
    ∧ ((osRemove [("video_a", 100)] "video_gone").isOk = false
      ∧ streamCleanup [("video_a", 100)] "video_gone" = [("video_a", 100)]
      ∧ sweepStep 4000 [("video_a", 100)] "video_gone" = [("video_a", 100)]
      ∧ cleanup_old_files 4000 ["video_gone", "video_a"] [("video_a", 100)]
          = cleanup_old_files 4000 ["video_a"] [("video_a", 100)]) :=
  ⟨by decide, C9_deletion_never_raises [("video_a", 100)] "video_gone" 4000
    ["video_a"] (by decide)⟩

/-- C10: only the exact format_id string 'bestaudio' triggers audio-only
handling — selector 'bestaudio/best', MP3 extraction at quality 192, no merge
container; every other format_id string is passed to the engine verbatim
with merge container mp4 and no post-processors. -/
theorem C10_bestaudio_dispatch (fid : String) :
    downloadOpts fid =
      if fid = "bestaudio" then
        { format := "bestaudio/best", merge_output_format := none,
          postprocessors := [("FFmpegExtractAudio", "mp3", "192")] }
      else
        { format := fid, merge_output_format := some "mp4", postprocessors := [] } := by
  by_cases h : fid = "bestaudio" <;> simp [downloadOpts, h]

/-- Witness for C1 at scenario A and height 1080. -/
theorem C1_per_height_dedup_witness :
    ((realEntries (normalizeFormats exScenarioA)).filter
        (fun e => e.height == 1080)).length ≤ 1
    ∧ dictFind 1080 (formats_dict exScenarioA)
        = specGroupPick (bestAudioSize exScenarioA) (heightGroup exScenarioA 1080) :=
  C1_per_height_dedup exScenarioA 1080

/-- Witness for C8 at concrete requests. -/
theorem C8_missing_parameter_responses_witness :
    get_info none = InfoResponse.badRequest 400 "No URL provided"
    ∧ download_handler none (some "137")
        = DownloadResponse.badRequest 400 "Missing parameters"
    ∧ invokesEngine (download_handler (some "http://example") none) = false :=
  ⟨C8_missing_parameter_responses.1,
   C8_missing_parameter_responses.2.2.1 (some "137"),
   C8_missing_parameter_responses.2.2.2.2.2 (some "http://example")⟩

/-- Witness for C10 at the audio selector and at an ordinary format id. -/
theorem C10_bestaudio_dispatch_witness :
    downloadOpts "bestaudio"
      = { format := "bestaudio/best", merge_output_format := none,
          postprocessors := [("FFmpegExtractAudio", "mp3", "192")] }
    ∧ downloadOpts "137"
      = { format := "137", merge_output_format := some "mp4", postprocessors := [] } :=
  ⟨(C10_bestaudio_dispatch "bestaudio").trans (by decide),
   (C10_bestaudio_dispatch "137").trans (by decide)⟩

end App
